import Mathlib

/-!
Verification of the WebRTC file-share core (`src/lib/webrtc.ts` and the
crypto module `src/lib/crypto.ts`).

Shallow-embedding conventions:
- JS byte buffers (`Uint8Array` / `ArrayBuffer`) are `List Nat`; stores into a
  `Uint8Array` reduce mod 256, reads are plain list access.
- JS strings are represented by their UTF-8 byte lists; `TextEncoder` /
  `TextDecoder` are the identity on that representation, and `btoa`/`atob`
  (a bijection between byte lists and base64 text) are likewise modeled as
  the identity.
- JS `Map` objects are association lists with `mget`/`mset`/`mdel`.
- The Web Crypto primitives (`crypto.subtle` ECDH and AES-GCM) are external
  to the repository; they are modeled from the spec as executable functions
  with the interface contract the spec states (fresh-IV AEAD with an
  authentication tag, commutative ECDH derivation).  The repository's own
  crypto wrappers (`deriveSharedKey`, `encryptData`, `decryptData`,
  `encryptString`, `decryptString`) are translated from the source on top
  of those primitives; the randomness (IVs) the source draws from the RNG
  is passed in explicitly.
- Fallible operations return `Option`/`Except`.
-/

namespace WebrtcShare

/-- Byte buffers: JS `Uint8Array` contents as a list of naturals (< 256). -/
abbrev Bytes := List Nat

/-! ### Association-list model of JS `Map` -/

/-- Model of `Map.get`: first binding for the key, if any. -/
def mget {β : Type} (k : Bytes) : List (Bytes × β) → Option β
  | [] => none
  | (k1, v) :: rest => if k1 = k then some v else mget k rest

/-- Model of `Map.delete`: remove the binding(s) for the key. -/
def mdel {β : Type} (k : Bytes) : List (Bytes × β) → List (Bytes × β)
  | [] => []
  | (k1, v) :: rest => if k1 = k then mdel k rest else (k1, v) :: mdel k rest

/-- Model of `Map.set`: (re)bind the key. -/
def mset {β : Type} (k : Bytes) (v : β) (m : List (Bytes × β)) : List (Bytes × β) :=
  (k, v) :: mdel k m

theorem mget_mset_self {β : Type} (k : Bytes) (v : β) (m : List (Bytes × β)) :
    mget k (mset k v m) = some v := by
  simp [mset, mget]

theorem mget_mdel_ne {β : Type} (k k2 : Bytes) (m : List (Bytes × β)) (h : k2 ≠ k) :
    mget k2 (mdel k m) = mget k2 m := by
  induction m with
  | nil => rfl
  | cons p rest ih =>
    obtain ⟨k1, v⟩ := p
    by_cases h1 : k1 = k
    · subst h1
      rw [mdel, if_pos rfl, ih, mget, if_neg (fun hh : k1 = k2 => h hh.symm)]
    · by_cases h2 : k1 = k2
      · subst h2; simp [mdel, mget, h1]
      · simp [mdel, mget, h1, h2, ih]

theorem mget_mset_ne {β : Type} (k k2 : Bytes) (v : β) (m : List (Bytes × β)) (h : k2 ≠ k) :
    mget k2 (mset k v m) = mget k2 m := by
  simp [mset, mget, fun hh : k = k2 => h hh.symm]
  rw [if_neg (fun hh : k = k2 => h hh.symm)]
  exact mget_mdel_ne k k2 m h

/-! ### Crypto primitives (Web Crypto API, modeled from the spec) -/

/-- Modelled from the spec: the 256-bit key space of the AEAD key that
`crypto.subtle.deriveKey` produces (§4.1: "ECDH derivation producing a
256-bit AEAD key"); the Web Crypto implementation itself is not part of
the repository. -/
def keyModulus : Nat := 2 ^ 256

/-- Modelled from the spec: the fixed base point of the P-256-equivalent
curve, represented multiplicatively over `keyModulus`. -/
def ecdhGenerator : Nat := 9

/-- Modelled from the spec: the public half of an ECDH key pair produced by
`crypto.subtle.generateKey` — scalar multiple of the generator. -/
def ecdhPublicOf (priv : Nat) : Nat := (ecdhGenerator * priv) % keyModulus

/-- Modelled from the spec: `crypto.subtle.deriveKey` for ECDH — scalar
multiplication of the peer's public point by the local private scalar. -/
def ecdhDeriveBits (priv pub : Nat) : Nat := (priv * pub) % keyModulus

/-- Numeric collapse of a byte list (used to feed an IV into the keystream). -/
def bytesVal (l : Bytes) : Nat := l.foldl (fun a b => a * 256 + b) 0

/-- Modelled from the spec: AES-GCM keystream encryption of the body bytes
(counter-mode stream cipher; byte `i` is masked by a keystream byte derived
from the key, the IV and the counter). -/
def ksEnc (key ivv : Nat) : Nat → Bytes → Bytes
  | _, [] => []
  | ctr, b :: rest => (b + key + ivv + ctr) % 256 :: ksEnc key ivv (ctr + 1) rest

/-- Modelled from the spec: inverse of the AES-GCM keystream masking. -/
def ksDec (key ivv : Nat) : Nat → Bytes → Bytes
  | _, [] => []
  | ctr, c :: rest => (c + 256 - (key + ivv + ctr) % 256) % 256 :: ksDec key ivv (ctr + 1) rest

/-- Modelled from the spec: the AEAD authentication tag appended to the
ciphertext and verified on decryption (§4.1). -/
def authTag (key ivv : Nat) (data : Bytes) : Nat :=
  (key + ivv + data.length + data.foldl (fun a b => a * 31 + b) 7) % 256

/-- Modelled from the spec: `crypto.subtle.encrypt` for AES-GCM — ciphertext
body followed by the authentication tag. -/
def aesGcmEncrypt (key : Nat) (iv data : Bytes) : Bytes :=
  ksEnc key (bytesVal iv) 0 data ++ [authTag key (bytesVal iv) data]

/-- Modelled from the spec: `crypto.subtle.decrypt` for AES-GCM — strip and
verify the tag, failing (`none`, the promise rejection) when it does not
match. -/
def aesGcmDecrypt (key : Nat) (iv ct : Bytes) : Option Bytes :=
  if ct.length = 0 then none
  else
    let plain := ksDec key (bytesVal iv) 0 ct.dropLast
    if ct.getLastD 0 = authTag key (bytesVal iv) plain then some plain else none

/-! ### Repository crypto wrappers (`src/lib/crypto.ts`) -/

/-- Function `deriveSharedKey(privateKey, peerPublicKey)` from `crypto.ts`. -/
def deriveSharedKey (privateKey peerPublicKey : Nat) : Nat :=
  ecdhDeriveBits privateKey peerPublicKey

/-- Function `encryptData(key, data)` from `crypto.ts`; the freshly random 12-byte IV
the source obtains from `crypto.getRandomValues` is the explicit `iv`
argument. Returns the `{ iv, encrypted }` pair. -/
def encryptData (key : Nat) (iv data : Bytes) : Bytes × Bytes :=
  (iv, aesGcmEncrypt key iv data)

/-- Function `decryptData(key, iv, encrypted)` from `crypto.ts`. -/
def decryptData (key : Nat) (iv encrypted : Bytes) : Option Bytes :=
  aesGcmDecrypt key iv encrypted

/-- Function `encryptString(key, text)` from `crypto.ts`: `base64(iv || ciphertext)`
(base64 modeled as identity on byte lists). -/
def encryptString (key : Nat) (iv text : Bytes) : Bytes :=
  iv ++ (encryptData key iv text).2

/-- Function `decryptString(key, encoded)` from `crypto.ts`: split the first 12 bytes
off as the IV and decrypt the rest. -/
def decryptString (key : Nat) (encoded : Bytes) : Option Bytes :=
  decryptData key (encoded.take 12) (encoded.drop 12)

theorem ksDec_ksEnc (key ivv : Nat) (data : Bytes) (hb : ∀ b ∈ data, b < 256) :
    ∀ ctr, ksDec key ivv ctr (ksEnc key ivv ctr data) = data := by
  induction data with
  | nil => intro ctr; rfl
  | cons b rest ih =>
    intro ctr
    have hbb : b < 256 := hb b (by simp)
    have ihr := ih (fun x hx => hb x (by simp [hx])) (ctr + 1)
    simp only [ksEnc, ksDec, ihr, List.cons.injEq, and_true]
    omega

theorem decryptData_encryptData (key : Nat) (iv data : Bytes) (hb : ∀ b ∈ data, b < 256) :
    decryptData key iv (encryptData key iv data).2 = some data := by
  simp only [decryptData, encryptData, aesGcmEncrypt, aesGcmDecrypt]
  rw [List.dropLast_concat, List.getLastD_concat]
  have hne : (ksEnc key (bytesVal iv) 0 data ++ [authTag key (bytesVal iv) data]).length ≠ 0 := by
    simp
  rw [if_neg hne, ksDec_ksEnc key (bytesVal iv) data hb 0, if_pos rfl]

theorem decryptString_encryptString (key : Nat) (iv text : Bytes)
    (hiv : iv.length = 12) (hb : ∀ b ∈ text, b < 256) :
    decryptString key (encryptString key iv text) = some text := by
  simp only [decryptString, encryptString]
  rw [← hiv, List.take_left, List.drop_left]
  exact decryptData_encryptData key iv text hb

theorem deriveSharedKey_comm (a b : Nat) :
    deriveSharedKey a (ecdhPublicOf b) = deriveSharedKey b (ecdhPublicOf a) := by
  simp only [deriveSharedKey, ecdhDeriveBits, ecdhPublicOf, Nat.mul_mod_mod]
  ring_nf

/-! ### Wire framing data model (`src/lib/webrtc.ts`) -/

/-- Constant `CHUNK_SIZE = 16384` from `webrtc.ts`. -/
def CHUNK_SIZE : Nat := 16384

/-- Stored inbound metadata: the value type of `receivedMeta`. -/
structure MetaInfo where
  name : Bytes
  size : Nat
  ftype : Bytes
deriving DecidableEq

/-- Parsed JSON control message (the spec's closed tagged union, §4.3):
`file-meta`, `file-complete`, or any other shape (kept opaque). -/
inductive CtrlMsg where
  | fileMeta (id : Bytes) (name : Bytes) (size : Nat) (ftype : Bytes) (encrypted : Bool)
  | fileComplete (id : Bytes)
  | other (raw : Nat)
deriving DecidableEq

/-- A data-channel message: UTF-8 text (a control message) or binary. -/
inductive Frame where
  | text (msg : CtrlMsg)
  | binary (bytes : Bytes)
deriving DecidableEq

/-- Values of `FileTransfer.status`. -/
inductive Status where
  | pending
  | transferring
  | completed
  | error
deriving DecidableEq

/-- A `FileTransfer` record as handed to `onFile` subscribers. -/
structure FileEvt where
  id : Bytes
  name : Bytes
  size : Nat
  ftype : Bytes
  progress : Nat
  status : Status
  data : Option Bytes
deriving DecidableEq

/-- An emission to a subscriber: `emitFile` or the generic `emit`. -/
inductive Event where
  | file (f : FileEvt)
  | msg (raw : CtrlMsg)
deriving DecidableEq

/-- One received chunk as stored in `receivedChunks`: a `Uint8Array` view.
`bytes` is the view's contents (`chunk` as indexed/measured by the code);
`backing` is the contents of the view's underlying `ArrayBuffer`
(`chunk.buffer`, which the `file-complete` handler feeds to the `Blob`
constructor — for a view created with a byte offset this is the whole
message buffer, not just the viewed range). -/
structure StoredChunk where
  bytes : Bytes
  backing : Bytes
deriving DecidableEq

/-- Values of `RTCDataChannel.readyState`. -/
inductive ChannelState where
  | connecting
  | opened
  | closing
  | closed
deriving DecidableEq

/-- The data channel as far as the manager's logic reads it. -/
structure DataChannel where
  readyState : ChannelState
deriving DecidableEq

/-- The mutable fields of the `WebRTCManager` singleton (encrypted variant):
the peer connection and data channel references, the two inbound
accumulation maps, and the key material.  `CryptoKey` handles are the
naturals of the crypto model; the key pair is `(publicKey, privateKey)`. -/
structure MState where
  peerConnection : Option Unit
  dataChannel : Option DataChannel
  receivedChunks : List (Bytes × List StoredChunk)
  receivedMeta : List (Bytes × MetaInfo)
  keyPair : Option (Nat × Nat)
  sharedKey : Option Nat
  isEncrypted : Bool
deriving DecidableEq

/-- The encryption key actually used by the send/receive paths: the guard
`this.isEncrypted && this.sharedKey` from `webrtc.ts`. -/
def activeKey (enc : Bool) (k : Option Nat) : Option Nat :=
  match enc, k with
  | true, some key => some key
  | _, _ => none

/-- Model of `Math.round((received / size) * 100)` over naturals (round half up);
`size = 0` (a NaN in JS) is mapped to 0. -/
def jsRound100 (received size : Nat) : Nat :=
  if size = 0 then 0 else (200 * received + size) / (2 * size)

/-! ### Chunking (`sendFile` while-loop over `data.slice`) -/

/-- Split a buffer into successive slices of `c + 1` bytes (the `+ 1`
guarantees termination for every `c`); `fileChunks` instantiates it at
`CHUNK_SIZE`. -/
def chunksOfAux (c : Nat) : Bytes → List Bytes
  | [] => []
  | b :: rest => ((b :: rest).take (c + 1)) :: chunksOfAux c ((b :: rest).drop (c + 1))
  termination_by l => l.length
  decreasing_by simp [List.length_drop]; omega

/-- The chunk sequence `data.slice(offset, offset + CHUNK_SIZE)` produced by
the `sendFile` loop. -/
def fileChunks (data : Bytes) : List Bytes := chunksOfAux (CHUNK_SIZE - 1) data

theorem chunksOfAux_join (c : Nat) : ∀ n (l : Bytes), l.length ≤ n →
    (chunksOfAux c l).flatten = l := by
  intro n
  induction n with
  | zero =>
    intro l hl
    have : l = [] := List.length_eq_zero.mp (Nat.le_zero.mp hl)
    subst this; simp [chunksOfAux]
  | succ n ih =>
    intro l hl
    match l with
    | [] => simp [chunksOfAux]
    | b :: rest =>
      rw [chunksOfAux]
      have hlen : ((b :: rest).drop (c + 1)).length ≤ n := by
        simp only [List.length_drop, List.length_cons]
        simp only [List.length_cons] at hl
        omega
      rw [List.flatten_cons, ih _ hlen, List.take_append_drop]

theorem fileChunks_join (data : Bytes) : (fileChunks data).flatten = data :=
  chunksOfAux_join (CHUNK_SIZE - 1) data.length data (Nat.le_refl _)

theorem fileChunks_length (data : Bytes) :
    (fileChunks data).length = (data.length + (CHUNK_SIZE - 1)) / CHUNK_SIZE := by
  show (chunksOfAux (CHUNK_SIZE - 1) data).length = _
  simp only [CHUNK_SIZE]
  have main : ∀ n (l : Bytes), l.length ≤ n →
      (chunksOfAux 16383 l).length = (l.length + 16383) / 16384 := by
    intro n
    induction n with
    | zero =>
      intro l hl
      have : l = [] := List.length_eq_zero.mp (Nat.le_zero.mp hl)
      subst this; simp [chunksOfAux]
    | succ n ih =>
      intro l hl
      match l with
      | [] => simp [chunksOfAux]
      | b :: rest =>
        rw [chunksOfAux]
        have hlen : ((b :: rest).drop (16383 + 1)).length ≤ n := by
          simp only [List.length_drop, List.length_cons]
          simp only [List.length_cons] at hl
          omega
        rw [List.length_cons, ih _ hlen]
        simp only [List.length_drop, List.length_cons]
        omega
  exact main data.length data (Nat.le_refl _)

theorem chunksOfAux_mem_bound (c : Nat) : ∀ n (l : Bytes), l.length ≤ n →
    (∀ b ∈ l, b < 256) → ∀ p ∈ chunksOfAux c l, ∀ b ∈ p, b < 256 := by
  intro n
  induction n with
  | zero =>
    intro l hl _ p hp
    have : l = [] := List.length_eq_zero.mp (Nat.le_zero.mp hl)
    subst this; simp [chunksOfAux] at hp
  | succ n ih =>
    intro l hl hb p hp
    match l with
    | [] => simp [chunksOfAux] at hp
    | x :: rest =>
      rw [chunksOfAux] at hp
      have hlen : ((x :: rest).drop (c + 1)).length ≤ n := by
        simp only [List.length_drop, List.length_cons]
        simp only [List.length_cons] at hl
        omega
      rcases List.mem_cons.mp hp with h | h
      · subst h
        intro b hbp
        exact hb b (List.take_subset _ _ hbp)
      · exact ih _ hlen (fun b hbd => hb b (List.drop_subset _ _ hbd)) p h

/-! ### Receive path (`handleIncomingMessage`) -/

/-- Metadata decryption attempted at the top of `handleIncomingMessage`
(lines 238–247): when the message carries `encrypted` and a shared key is
held, `name` and `fileType` of a `file-meta` are decrypted in sequence
inside a try/catch — a failure is logged and leaves the remaining fields
as they were (the message is still processed afterwards). -/
def decodeMetaFields (s : MState) (m : CtrlMsg) : CtrlMsg :=
  match m with
  | CtrlMsg.fileMeta id name size ftype true =>
    match s.sharedKey with
    | some k =>
      match decryptString k name with
      | none => CtrlMsg.fileMeta id name size ftype true
      | some n =>
        match decryptString k ftype with
        | none => CtrlMsg.fileMeta id n size ftype true
        | some t => CtrlMsg.fileMeta id n size t true
    | none => m
  | _ => m

/-- The string-message half of `handleIncomingMessage` (lines 234–285). -/
def handleTextMessage (s : MState) (m0 : CtrlMsg) : MState × List Event :=
  match decodeMetaFields s m0 with
  | CtrlMsg.fileMeta id name size ftype _ =>
    ({ s with
        receivedMeta := mset id ⟨name, size, ftype⟩ s.receivedMeta,
        receivedChunks := mset id [] s.receivedChunks },
      [Event.file ⟨id, name, size, ftype, 0, Status.transferring, none⟩])
  | CtrlMsg.fileComplete id =>
    match mget id s.receivedChunks, mget id s.receivedMeta with
    | some chunks, some meta =>
      let blob := (chunks.map fun cc => cc.backing).flatten
      ({ s with
          receivedChunks := mdel id s.receivedChunks,
          receivedMeta := mdel id s.receivedMeta },
        [Event.file ⟨id, meta.name, meta.size, meta.ftype, 100, Status.completed, some blob⟩])
    | _, _ => (s, [])
  | m => (s, [Event.msg m])

/-- Parsing of a binary chunk frame on the receive path (lines 286–308):
`idLength` from byte 0, the id from the following bytes, then — when the
session is encrypted — the 12-byte IV and the ciphertext, with a failed
decryption yielding `none` (the chunk is dropped). In the unencrypted
case the stored view covers the payload while its backing buffer is the
whole message. -/
def parsePacket (keyOn : Option Nat) (data : Bytes) : Bytes × Option StoredChunk :=
  let idLength := data.headD 0
  let id := (data.drop 1).take idLength
  match keyOn with
  | some k =>
    let iv := (data.drop (1 + idLength)).take 12
    let encrypted := data.drop (1 + idLength + 12)
    match decryptData k iv encrypted with
    | some plain => (id, some ⟨plain, plain⟩)
    | none => (id, none)
  | none => (id, some ⟨data.drop (1 + idLength), data⟩)

/-- The binary half of `handleIncomingMessage` (lines 286–327): parse the
frame, drop it on decryption failure, then append the chunk and emit a
progress event only when both accumulation entries exist for the id. -/
def handleBinaryMessage (s : MState) (data : Bytes) : MState × List Event :=
  match parsePacket (activeKey s.isEncrypted s.sharedKey) data with
  | (_, none) => (s, [])
  | (id, some chunk) =>
    match mget id s.receivedChunks, mget id s.receivedMeta with
    | some chunks, some meta =>
      let chunks2 := chunks ++ [chunk]
      let received := (chunks2.map fun cc => cc.bytes.length).sum
      ({ s with receivedChunks := mset id chunks2 s.receivedChunks },
        [Event.file ⟨id, meta.name, meta.size, meta.ftype,
          jsRound100 received meta.size, Status.transferring, none⟩])
    | _, _ => (s, [])

/-- Method `handleIncomingMessage(data)`: dispatch on `typeof data`. -/
def handleIncomingMessage (s : MState) (f : Frame) : MState × List Event :=
  match f with
  | Frame.text m => handleTextMessage s m
  | Frame.binary b => handleBinaryMessage s b

/-- Ordered delivery of a frame sequence to the receiver, accumulating the
emitted events. -/
def processFrames (s : MState) : List Frame → MState × List Event
  | [] => (s, [])
  | f :: rest =>
    let r1 := handleIncomingMessage s f
    let r2 := processFrames r1.1 rest
    (r2.1, r1.2 ++ r2.2)

/-! ### Send path (`sendFile`) -/

/-- One outbound binary chunk packet (lines 363–381):
`[idLen:u8][id bytes][iv:12 bytes if encrypted][payload]`; the length byte
is a `Uint8Array` store and hence reduces mod 256. -/
def buildPacket (keyOn : Option Nat) (iv idBytes chunk : Bytes) : Bytes :=
  match keyOn with
  | some k => (idBytes.length % 256) :: (idBytes ++ (iv ++ (encryptData k iv chunk).2))
  | none => (idBytes.length % 256) :: (idBytes ++ chunk)

/-- The packets for the successive chunks; `ivs i` is the random IV the
RNG hands `encryptData` for the `i`-th chunk. -/
def buildPackets (keyOn : Option Nat) (ivs : Nat → Bytes) (idBytes : Bytes) :
    Nat → List Bytes → List Bytes
  | _, [] => []
  | i, ch :: rest =>
    buildPacket keyOn (ivs i) idBytes ch :: buildPackets keyOn ivs idBytes (i + 1) rest

/-- Method `sendFile(file)` (lines 330–421): reject unless the data channel exists
and is open; otherwise send one `file-meta` (fields encrypted when a
shared key is active), the chunk packets, and one `file-complete`,
emitting a progress event per chunk and a final `completed` event.
`id` is the freshly generated UUID, `fname`/`ftype`/`fileData` the file's
name, MIME type and contents, and `metaIv1`/`metaIv2`/`ivs` the IVs the
RNG produces. The returned frames are in send order. -/
def sendFile (s : MState) (fname ftype fileData id : Bytes)
    (metaIv1 metaIv2 : Bytes) (ivs : Nat → Bytes) :
    Except String (List Frame × List Event) :=
  match s.dataChannel with
  | none => Except.error "Data channel not ready"
  | some ch =>
    if ch.readyState = ChannelState.opened then
      let keyOn := activeKey s.isEncrypted s.sharedKey
      let metaMsg : CtrlMsg :=
        match keyOn with
        | some k =>
          CtrlMsg.fileMeta id (encryptString k metaIv1 fname) fileData.length
            (encryptString k metaIv2 ftype) s.isEncrypted
        | none => CtrlMsg.fileMeta id fname fileData.length ftype s.isEncrypted
      let pieces := fileChunks fileData
      let packets := buildPackets keyOn ivs id 0 pieces
      let chunkEvents := (List.range pieces.length).map fun i =>
        Event.file ⟨id, fname, fileData.length, ftype,
          min (jsRound100 ((i + 1) * CHUNK_SIZE) fileData.length) 100,
          Status.transferring, none⟩
      Except.ok
        (Frame.text metaMsg :: (packets.map Frame.binary ++ [Frame.text (CtrlMsg.fileComplete id)]),
          chunkEvents ++ [Event.file ⟨id, fname, fileData.length, ftype, 100, Status.completed, none⟩])
    else Except.error "Data channel not ready"

/-! ### Teardown (`disconnect`, lines 431–441) -/

/-- The close calls `disconnect` performs on the transport objects. -/
inductive TeardownAction where
  | closeChannel
  | closeConnection
deriving DecidableEq

/-- Method `disconnect()`: close the channel and connection (optional chaining —
only when present), null the references and key material, clear both
accumulation maps, reset the encryption flag. -/
def disconnect (s : MState) : MState × List TeardownAction :=
  ({ s with
      dataChannel := none,
      peerConnection := none,
      receivedChunks := [],
      receivedMeta := [],
      keyPair := none,
      sharedKey := none,
      isEncrypted := false },
    (match s.dataChannel with
      | some _ => [TeardownAction.closeChannel]
      | none => [])
    ++ (match s.peerConnection with
      | some _ => [TeardownAction.closeConnection]
      | none => []))

/-! ### Flow control (the backpressure wait, lines 383–386) -/

/-- The polling loop `while (bufferedAmount > 1024 * 1024) await sleep(10)`:
consume successive `bufferedAmount` readings until one is at or below the
hard-coded 1 MiB threshold; `none` when every reading stays above it (the
loop is still suspended when the observation window ends). -/
def waitLow : List Nat → Option (List Nat)
  | [] => none
  | r :: rest => if r > 1024 * 1024 then waitLow rest else some rest

/-- Number of chunk sends the `sendFile` loop issues for `chunks` remaining
chunks, given the finite sequence of `bufferedAmount` readings its polls
observe: each send must first get past the polling loop. -/
def countSends (readings : List Nat) : Nat → Nat
  | 0 => 0
  | n + 1 =>
    match waitLow readings with
    | none => 0
    | some rest => 1 + countSends rest n

/-- Modelled from the spec: the default `TransferConfig.bufferThreshold`
(§3: 64 KiB) that the claim's "configured bufferThreshold" denotes; no
`TransferConfig` exists in the source. -/
def specBufferThreshold : Nat := 65536

/-- The backpressure claim as the spec states it: while the buffered-bytes
readings all exceed the configured `bufferThreshold` and no
buffered-amount-low event fires, no chunk send is issued. -/
def backpressureAsStated : Prop :=
  ∀ (readings : List Nat) (n : Nat),
    (∀ r ∈ readings, r > specBufferThreshold) → countSends readings n = 0

/-! ### Calibration (modelled from the spec, §4.4: absent from src) -/

/-- Modelled from the spec: the ascending candidate chunk sizes of the
calibration protocol (16 KiB through 256 KiB, §8); the calibration engine
is not present in the source tree. -/
def calCandidates : List Nat := [16384, 32768, 65536, 131072, 262144]

/-- Modelled from the spec: `TransferConfig` (§3). -/
structure TransferConfig where
  chunkSize : Nat
  bufferThreshold : Nat
  bufferLowThreshold : Nat
  maxMessageSize : Nat
  effectiveBandwidth : Nat
  isCalibrated : Bool
deriving DecidableEq

/-- Modelled from the spec: the conservative default configuration (§3). -/
def defaultConfig : TransferConfig :=
  ⟨16384, 65536, 16384, 262144, 0, false⟩

/-- Modelled from the spec: probe the candidate sizes in ascending order;
`probe c = some bw` is a completed probe with measured bandwidth `bw`,
`none` a timeout, which stops the advance to larger sizes. Returns the
attempted sizes and the successful `(size, bandwidth)` results. -/
def calibrate (probe : Nat → Option Nat) : List Nat → List Nat × List (Nat × Nat)
  | [] => ([], [])
  | c :: rest =>
    match probe c with
    | none => ([c], [])
    | some bw =>
      let r := calibrate probe rest
      (c :: r.1, (c, bw) :: r.2)

/-- Modelled from the spec: the successful probe with the highest measured
bandwidth (first such on ties). -/
def bestResult : List (Nat × Nat) → Option (Nat × Nat)
  | [] => none
  | p :: rest =>
    match bestResult rest with
    | none => some p
    | some q => if q.2 > p.2 then some q else some p

/-- Modelled from the spec: the final `TransferConfig` — chunk size and
bandwidth from the best probe, `bufferThreshold` 4× and
`bufferLowThreshold` 1× that size, `maxMessageSize` the largest
successfully probed size, `isCalibrated` true; defaults when every probe
failed. -/
def finalizeConfig (results : List (Nat × Nat)) : TransferConfig :=
  match bestResult results with
  | none => defaultConfig
  | some p =>
    ⟨p.1, 4 * p.1, p.1, (results.map Prod.fst).foldl max 0, p.2, true⟩

/-- Modelled from the spec: one calibration run — probe the candidates and
finalize the configuration. -/
def runCalibration (probe : Nat → Option Nat) : TransferConfig × List Nat :=
  let r := calibrate probe calCandidates
  (finalizeConfig r.2, r.1)

/-! ### Frame round-trip lemmas -/

theorem parsePacket_fst (keyOn : Option Nat) (data : Bytes) :
    (parsePacket keyOn data).1 = (data.drop 1).take (data.headD 0) := by
  cases keyOn with
  | none => rfl
  | some k =>
    simp only [parsePacket]
    cases decryptData k ((data.drop (1 + data.headD 0)).take 12)
        (data.drop (1 + data.headD 0 + 12)) <;> rfl

theorem parsePacket_buildPacket_enc (k : Nat) (iv id p : Bytes)
    (hid : id.length ≤ 255) (hiv : iv.length = 12) (hb : ∀ x ∈ p, x < 256) :
    parsePacket (some k) (buildPacket (some k) iv id p) = (id, some ⟨p, p⟩) := by
  have hmod : id.length % 256 = id.length := Nat.mod_eq_of_lt (by omega)
  simp only [buildPacket, parsePacket, List.headD_cons, hmod]
  have hdrop1 : (((id.length : Nat)) :: (id ++ (iv ++ (encryptData k iv p).2))).drop 1
      = id ++ (iv ++ (encryptData k iv p).2) := rfl
  rw [hdrop1, List.take_left]
  have hdropid : (((id.length : Nat)) :: (id ++ (iv ++ (encryptData k iv p).2))).drop (1 + id.length)
      = iv ++ (encryptData k iv p).2 := by
    rw [Nat.add_comm, List.drop_succ_cons, List.drop_left]
  rw [hdropid, ← hiv, List.take_left]
  have hdropiv : (((id.length : Nat)) :: (id ++ (iv ++ (encryptData k iv p).2))).drop
      (1 + id.length + iv.length) = (encryptData k iv p).2 := by
    have h1 : 1 + id.length + iv.length = (id.length + iv.length) + 1 := by omega
    rw [h1, List.drop_succ_cons, ← List.append_assoc]
    rw [show id.length + iv.length = (id ++ iv).length from (List.length_append id iv).symm]
    exact List.drop_left _ _
  rw [hdropiv, decryptData_encryptData k iv p hb]

theorem parsePacket_buildPacket_plain (iv id p : Bytes) (hid : id.length ≤ 255) :
    parsePacket none (buildPacket none iv id p)
      = (id, some ⟨p, buildPacket none iv id p⟩) := by
  have hmod : id.length % 256 = id.length := Nat.mod_eq_of_lt (by omega)
  simp only [buildPacket, parsePacket, List.headD_cons, hmod]
  have hdrop1 : (((id.length : Nat)) :: (id ++ p)).drop 1 = id ++ p := rfl
  rw [hdrop1, List.take_left]
  have hdropid : (((id.length : Nat)) :: (id ++ p)).drop (1 + id.length) = p := by
    rw [Nat.add_comm, List.drop_succ_cons, List.drop_left]
  rw [hdropid]

/-- C2: for every byte buffer `b` and symmetric key `k`, decrypting the
`(iv, ciphertext)` pair produced by `encryptData` returns `b`; and ECDH
derivation is commutative across peers, so a buffer encrypted under
`kA = deriveSharedKey(privA, pubB)` decrypts under
`kB = deriveSharedKey(privB, pubA)`. -/
theorem c2_roundtrip_encryption (k privA privB : Nat) (iv b : Bytes)
    (hb : ∀ x ∈ b, x < 256) :
    decryptData k (encryptData k iv b).1 (encryptData k iv b).2 = some b
    ∧ deriveSharedKey privA (ecdhPublicOf privB) = deriveSharedKey privB (ecdhPublicOf privA)
    ∧ decryptData (deriveSharedKey privB (ecdhPublicOf privA)) iv
        (encryptData (deriveSharedKey privA (ecdhPublicOf privB)) iv b).2 = some b := by
  refine ⟨decryptData_encryptData k iv b hb, deriveSharedKey_comm privA privB, ?_⟩
  rw [deriveSharedKey_comm privA privB]
  exact decryptData_encryptData _ iv b hb

/-- Witness for C2 at concrete keys, IV and buffer. -/
theorem c2_roundtrip_encryption_witness :
    decryptData 3 (encryptData 3 (List.replicate 12 1) [0, 1, 255]).1
        (encryptData 3 (List.replicate 12 1) [0, 1, 255]).2 = some [0, 1, 255]
    ∧ deriveSharedKey 10 (ecdhPublicOf 20) = deriveSharedKey 20 (ecdhPublicOf 10)
    ∧ decryptData (deriveSharedKey 20 (ecdhPublicOf 10)) (List.replicate 12 1)
        (encryptData (deriveSharedKey 10 (ecdhPublicOf 20)) (List.replicate 12 1) [0, 1, 255]).2
        = some [0, 1, 255] :=
  c2_roundtrip_encryption 3 10 20 (List.replicate 12 1) [0, 1, 255] (by decide)

/-- C3: encoding a chunk frame `[idLen:u8][id][iv if encrypted][payload]`
with `buildPacket` and decoding it with the receive path's `parsePacket`
recovers the original id and payload in both modes (in the unencrypted
mode the recovered view's backing buffer is the whole packet). -/
theorem c3_frame_roundtrip (k : Nat) (iv id payload : Bytes)
    (hid : id.length ≤ 255) (hiv : iv.length = 12) (hb : ∀ x ∈ payload, x < 256) :
    parsePacket (some k) (buildPacket (some k) iv id payload) = (id, some ⟨payload, payload⟩)
    ∧ parsePacket none (buildPacket none iv id payload)
        = (id, some ⟨payload, buildPacket none iv id payload⟩) :=
  ⟨parsePacket_buildPacket_enc k iv id payload hid hiv hb,
    parsePacket_buildPacket_plain iv id payload hid⟩

/-- Witness for C3 with id `"abc"` (UTF-8 bytes 97 98 99) and a concrete
payload. -/
theorem c3_frame_roundtrip_witness :
    parsePacket (some 7) (buildPacket (some 7) (List.replicate 12 2) [97, 98, 99] [5, 0, 200])
        = ([97, 98, 99], some ⟨[5, 0, 200], [5, 0, 200]⟩)
    ∧ parsePacket none (buildPacket none (List.replicate 12 2) [97, 98, 99] [5, 0, 200])
        = ([97, 98, 99], some ⟨[5, 0, 200],
            buildPacket none (List.replicate 12 2) [97, 98, 99] [5, 0, 200]⟩) :=
  c3_frame_roundtrip 7 (List.replicate 12 2) [97, 98, 99] [5, 0, 200]
    (by decide) (by decide) (by decide)

/-- C4: a binary chunk frame, or a `file-complete` control message, whose
transfer id has no metadata entry leaves the whole receiver state unchanged
and emits no event at all. -/
theorem c4_unknown_id_drop (s : MState) (data id : Bytes)
    (hbin : mget ((data.drop 1).take (data.headD 0)) s.receivedMeta = none)
    (htext : mget id s.receivedMeta = none) :
    handleBinaryMessage s data = (s, [])
    ∧ handleTextMessage s (CtrlMsg.fileComplete id) = (s, []) := by
  constructor
  · rcases hp : parsePacket (activeKey s.isEncrypted s.sharedKey) data with ⟨pid, oc⟩
    have hpid : pid = (data.drop 1).take (data.headD 0) := by
      have := parsePacket_fst (activeKey s.isEncrypted s.sharedKey) data
      rw [hp] at this; exact this
    subst hpid
    cases oc with
    | none => simp [handleBinaryMessage, hp]
    | some c =>
      simp only [handleBinaryMessage, hp, hbin]
      cases mget ((data.drop 1).take (data.headD 0)) s.receivedChunks <;> rfl
  · simp only [handleTextMessage, decodeMetaFields, htext]
    cases mget id s.receivedChunks <;> rfl

/-- Witness for C4 on an empty receiver state. -/
theorem c4_unknown_id_drop_witness :
    handleBinaryMessage ⟨none, none, [], [], none, none, false⟩ [1, 65, 2] =
      (⟨none, none, [], [], none, none, false⟩, [])
    ∧ handleTextMessage ⟨none, none, [], [], none, none, false⟩ (CtrlMsg.fileComplete [9]) =
      (⟨none, none, [], [], none, none, false⟩, []) :=
  c4_unknown_id_drop ⟨none, none, [], [], none, none, false⟩ [1, 65, 2] [9] (by decide) (by decide)

/-- C7: `sendFile` with an absent or non-open data channel rejects with
"Data channel not ready"; no frame is produced, no event emitted, and the
session fields are untouched (the model's `sendFile` reads but never
writes the session). -/
theorem c7_channel_not_ready (s : MState)
    (fname ftype fileData id metaIv1 metaIv2 : Bytes) (ivs : Nat → Bytes)
    (h : ∀ ch, s.dataChannel = some ch → ch.readyState ≠ ChannelState.opened) :
    sendFile s fname ftype fileData id metaIv1 metaIv2 ivs
      = Except.error "Data channel not ready" := by
  rcases hdc : s.dataChannel with _ | ch
  · simp [sendFile, hdc]
  · simp [sendFile, hdc, h ch hdc]

/-- Witness for C7: a session with no data channel. -/
theorem c7_channel_not_ready_witness :
    sendFile ⟨none, none, [], [], none, none, false⟩ [1] [2] [3] [4] [] []
        (fun _ => []) = Except.error "Data channel not ready" :=
  c7_channel_not_ready ⟨none, none, [], [], none, none, false⟩ [1] [2] [3] [4] [] []
    (fun _ => []) (fun ch hch => Option.noConfusion hch)

/-- C8: after `disconnect` the key pair, shared key and encryption flag are
wiped, both accumulation maps are empty, the channel and connection
references are nulled, and a close was issued for whichever of the channel
and connection existed. -/
theorem c8_disconnect_wipe (s : MState) :
    (disconnect s).1.keyPair = none ∧ (disconnect s).1.sharedKey = none
    ∧ (disconnect s).1.isEncrypted = false
    ∧ (disconnect s).1.receivedChunks = [] ∧ (disconnect s).1.receivedMeta = []
    ∧ (disconnect s).1.dataChannel = none ∧ (disconnect s).1.peerConnection = none
    ∧ (s.dataChannel.isSome = true → TeardownAction.closeChannel ∈ (disconnect s).2)
    ∧ (s.peerConnection.isSome = true → TeardownAction.closeConnection ∈ (disconnect s).2) := by
  refine ⟨rfl, rfl, rfl, rfl, rfl, rfl, rfl, ?_, ?_⟩
  · intro h
    rcases hdc : s.dataChannel with _ | ch
    · rw [hdc] at h; simp at h
    · simp [disconnect, hdc]
  · intro h
    rcases hpc : s.peerConnection with _ | u
    · rw [hpc] at h; simp at h
    · rcases hdc : s.dataChannel with _ | ch <;> simp [disconnect, hdc, hpc]

/-- Witness for C8 on a fully populated session. -/
theorem c8_disconnect_wipe_witness :
    (disconnect ⟨some (), some ⟨ChannelState.opened⟩, [([1], [⟨[2], [2]⟩])],
        [([1], ⟨[3], 4, [5]⟩)], some (6, 7), some 8, true⟩).1.sharedKey = none
    ∧ TeardownAction.closeChannel ∈ (disconnect ⟨some (), some ⟨ChannelState.opened⟩,
        [([1], [⟨[2], [2]⟩])], [([1], ⟨[3], 4, [5]⟩)], some (6, 7), some 8, true⟩).2
    ∧ TeardownAction.closeConnection ∈ (disconnect ⟨some (), some ⟨ChannelState.opened⟩,
        [([1], [⟨[2], [2]⟩])], [([1], ⟨[3], 4, [5]⟩)], some (6, 7), some 8, true⟩).2 := by
  obtain ⟨_, h2, _, _, _, _, _, h8, h9⟩ := c8_disconnect_wipe
    ⟨some (), some ⟨ChannelState.opened⟩, [([1], [⟨[2], [2]⟩])],
      [([1], ⟨[3], 4, [5]⟩)], some (6, 7), some 8, true⟩
  exact ⟨h2, h8 rfl, h9 rfl⟩

theorem decodeMetaFields_fileMeta (s : MState) (id name ftype : Bytes) (size : Nat) (e : Bool) :
    ∃ nm ft, decodeMetaFields s (CtrlMsg.fileMeta id name size ftype e)
      = CtrlMsg.fileMeta id nm size ft e := by
  cases e
  · exact ⟨name, ftype, rfl⟩
  · rcases hk : s.sharedKey with _ | k
    · exact ⟨name, ftype, by simp only [decodeMetaFields, hk]⟩
    · rcases hn : decryptString k name with _ | n
      · exact ⟨name, ftype, by simp only [decodeMetaFields, hk, hn]⟩
      · rcases ht : decryptString k ftype with _ | t
        · exact ⟨n, ftype, by simp only [decodeMetaFields, hk, hn, ht]⟩
        · exact ⟨n, t, by simp only [decodeMetaFields, hk, hn, ht]⟩

theorem handleText_meta (s : MState) (id nm : Bytes) (sz : Nat) (ft : Bytes) (e : Bool) :
    ∃ nm2 ft2,
      handleTextMessage s (CtrlMsg.fileMeta id nm sz ft e)
        = ({ s with
              receivedMeta := mset id ⟨nm2, sz, ft2⟩ s.receivedMeta,
              receivedChunks := mset id [] s.receivedChunks },
            [Event.file ⟨id, nm2, sz, ft2, 0, Status.transferring, none⟩]) := by
  obtain ⟨nm2, ft2, hdec⟩ := decodeMetaFields_fileMeta s id nm ft sz e
  exact ⟨nm2, ft2, by simp only [handleTextMessage, hdec]⟩

/-- C10: a `file-meta` for an id that already has accumulation state
overwrites the stored metadata, resets the chunk list for that id to
empty (discarding previously received chunks), and emits a fresh
`transferring` event with progress 0. -/
theorem c10_meta_overwrite (s : MState) (id name ftype : Bytes) (size : Nat) (e : Bool)
    (old : List StoredChunk) (om : MetaInfo)
    (hc : mget id s.receivedChunks = some old) (hm : mget id s.receivedMeta = some om) :
    ∃ nm ft,
      mget id (handleTextMessage s (CtrlMsg.fileMeta id name size ftype e)).1.receivedChunks
        = some []
      ∧ mget id (handleTextMessage s (CtrlMsg.fileMeta id name size ftype e)).1.receivedMeta
        = some ⟨nm, size, ft⟩
      ∧ (handleTextMessage s (CtrlMsg.fileMeta id name size ftype e)).2
        = [Event.file ⟨id, nm, size, ft, 0, Status.transferring, none⟩] := by
  obtain ⟨nm, ft, heq⟩ := handleText_meta s id name size ftype e
  exact ⟨nm, ft, by rw [heq]; exact mget_mset_self id [] s.receivedChunks,
    by rw [heq]; exact mget_mset_self id _ s.receivedMeta, by rw [heq]⟩

/-- Witness for C10 on a state already holding a chunk and metadata for the
id. -/
theorem c10_meta_overwrite_witness :
    ∃ nm ft,
      mget [1] (handleTextMessage ⟨none, none, [([1], [⟨[5], [5]⟩])], [([1], ⟨[2], 3, [4]⟩)],
          none, none, false⟩ (CtrlMsg.fileMeta [1] [7] 9 [8] false)).1.receivedChunks = some []
      ∧ mget [1] (handleTextMessage ⟨none, none, [([1], [⟨[5], [5]⟩])], [([1], ⟨[2], 3, [4]⟩)],
          none, none, false⟩ (CtrlMsg.fileMeta [1] [7] 9 [8] false)).1.receivedMeta
          = some ⟨nm, 9, ft⟩
      ∧ (handleTextMessage ⟨none, none, [([1], [⟨[5], [5]⟩])], [([1], ⟨[2], 3, [4]⟩)],
          none, none, false⟩ (CtrlMsg.fileMeta [1] [7] 9 [8] false)).2
          = [Event.file ⟨[1], nm, 9, ft, 0, Status.transferring, none⟩] :=
  c10_meta_overwrite ⟨none, none, [([1], [⟨[5], [5]⟩])], [([1], ⟨[2], 3, [4]⟩)],
    none, none, false⟩ [1] [7] [8] 9 false [⟨[5], [5]⟩] ⟨[2], 3, [4]⟩ (by decide) (by decide)

theorem waitLow_none (readings : List Nat) (h : ∀ r ∈ readings, r > 1024 * 1024) :
    waitLow readings = none := by
  induction readings with
  | nil => rfl
  | cons r rest ih =>
    rw [waitLow, if_pos (h r (by simp))]
    exact ih fun x hx => h x (by simp [hx])

/-- C5 (amended): the send loop's own threshold is the hard-coded 1 MiB
(`1024 * 1024`) and resumption is by polling, not a buffered-amount-low
event; on a channel whose polled buffered amount never comes back down to
1 MiB, no chunk send is ever issued. -/
theorem c5_backpressure_amended (readings : List Nat) (n : Nat)
    (h : ∀ r ∈ readings, r > 1024 * 1024) : countSends readings n = 0 := by
  cases n with
  | zero => rfl
  | succ n => rw [countSends, waitLow_none readings h]

/-- Witness for C5 (amended): readings stuck above 1 MiB, three chunks
pending, zero sends. -/
theorem c5_backpressure_amended_witness : countSends [2000000, 1500000] 3 = 0 :=
  c5_backpressure_amended [2000000, 1500000] 3 (by decide)

/-- C5 counterexample: with every reading at 100000 — above the spec's
configured `bufferThreshold` default of 64 KiB and with no
buffered-amount-low event anywhere in the model — the code still sends
both chunks, because its actual threshold is the hard-coded 1 MiB and it
polls rather than waiting for an event. -/
theorem c5_backpressure_counterexample : ¬ backpressureAsStated := by
  intro h
  have h2 := h [100000, 100000] 2 (by decide)
  have h3 : countSends [100000, 100000] 2 = 2 := by decide
  omega

/-- C6 (amended): a binary chunk whose AEAD decryption fails is dropped —
state unchanged, no event; a `file-meta` whose string decryption fails is
logged but still processed, and in every case only the message's own id
is touched: the accumulation entries of every other transfer id are
unchanged (the receive path is a total function — it never throws). -/
theorem c6_decrypt_failure_containment :
    (∀ (s : MState) (data : Bytes),
      (parsePacket (activeKey s.isEncrypted s.sharedKey) data).2 = none →
      handleBinaryMessage s data = (s, []))
    ∧ (∀ (s : MState) (id name ftype idAlt : Bytes) (size : Nat) (e : Bool),
        idAlt ≠ id →
        mget idAlt (handleTextMessage s (CtrlMsg.fileMeta id name size ftype e)).1.receivedChunks
          = mget idAlt s.receivedChunks
        ∧ mget idAlt (handleTextMessage s (CtrlMsg.fileMeta id name size ftype e)).1.receivedMeta
          = mget idAlt s.receivedMeta) := by
  constructor
  · intro s data hnone
    rcases hp : parsePacket (activeKey s.isEncrypted s.sharedKey) data with ⟨pid, oc⟩
    rw [hp] at hnone
    simp only at hnone
    subst hnone
    simp [handleBinaryMessage, hp]
  · intro s id name ftype idAlt size e hne
    obtain ⟨nm, ft, heq⟩ := handleText_meta s id name size ftype e
    rw [heq]
    exact ⟨mget_mset_ne id idAlt [] s.receivedChunks hne,
      mget_mset_ne id idAlt _ s.receivedMeta hne⟩

/-- Witness for C6 (amended): an encrypted session, a chunk frame whose tag
does not verify (dropped with the state unchanged), and a second id whose
entries survive a metadata message for id `[1]`. -/
theorem c6_decrypt_failure_containment_witness :
    handleBinaryMessage ⟨none, none, [], [], none, some 5, true⟩
        ([1, 65] ++ List.replicate 12 0 ++ [99]) = (⟨none, none, [], [], none, some 5, true⟩, [])
    ∧ mget [2] (handleTextMessage ⟨none, none, [([2], [⟨[6], [6]⟩])], [([2], ⟨[6], 7, [6]⟩)],
        none, some 5, true⟩ (CtrlMsg.fileMeta [1] [] 10 [] true)).1.receivedChunks
        = some [⟨[6], [6]⟩] := by
  constructor
  · exact c6_decrypt_failure_containment.1 ⟨none, none, [], [], none, some 5, true⟩
      ([1, 65] ++ List.replicate 12 0 ++ [99]) (by decide)
  · have h := (c6_decrypt_failure_containment.2 ⟨none, none, [([2], [⟨[6], [6]⟩])],
      [([2], ⟨[6], 7, [6]⟩)], none, some 5, true⟩ [1] [] [] [2] 10 true (by decide)).1
    rw [h]; decide

/-- C6 counterexample: on a `file-meta` whose name fails AEAD verification
(`decryptString` returns `none`), the message is not dropped — the handler
still installs an accumulation entry (with the undecrypted ciphertext
string as the name) and changes the state. -/
theorem c6_decrypt_failure_counterexample :
    decryptString 5 [] = none
    ∧ (handleTextMessage ⟨none, none, [], [], none, some 5, true⟩
        (CtrlMsg.fileMeta [1] [] 10 [] true)).1 ≠ ⟨none, none, [], [], none, some 5, true⟩
    ∧ mget [1] (handleTextMessage ⟨none, none, [], [], none, some 5, true⟩
        (CtrlMsg.fileMeta [1] [] 10 [] true)).1.receivedMeta = some ⟨[], 10, []⟩ := by
  decide

theorem calibrate_stop (probe : Nat → Option Nat) :
    ∀ (l : List Nat), l.Pairwise (· ≤ ·) →
      ∀ c ∈ l, probe c = none → ∀ c2 ∈ (calibrate probe l).1, c2 ≤ c := by
  intro l
  induction l with
  | nil => intro _ c hc; simp at hc
  | cons c0 rest ih =>
    intro hp c hc hnone c2 hc2
    rcases hq : probe c0 with _ | bw
    · rw [calibrate, hq] at hc2
      simp only [List.mem_singleton] at hc2
      subst hc2
      rcases List.mem_cons.mp hc with h | h
      · exact Nat.le_of_eq h.symm
      · exact (List.pairwise_cons.mp hp).1 c h
    · rw [calibrate, hq] at hc2
      simp only [List.mem_cons] at hc2
      rcases List.mem_cons.mp hc with h | h
      · subst h; rw [hq] at hnone; exact Option.noConfusion hnone
      · rcases hc2 with h2 | h2
        · subst h2; exact (List.pairwise_cons.mp hp).1 c h
        · exact ih (List.pairwise_cons.mp hp).2 c h hnone c2 h2

theorem bestResult_eq_none : ∀ rs : List (Nat × Nat), bestResult rs = none → rs = [] := by
  intro rs h
  cases rs with
  | nil => rfl
  | cons r t =>
    exfalso
    rcases hb : bestResult t with _ | q
    · simp only [bestResult, hb] at h
      exact Option.noConfusion h
    · simp only [bestResult, hb] at h
      by_cases hgt : q.2 > r.2
      · rw [if_pos hgt] at h; exact Option.noConfusion h
      · rw [if_neg hgt] at h; exact Option.noConfusion h

theorem bestResult_spec : ∀ (rs : List (Nat × Nat)) (p : Nat × Nat),
    bestResult rs = some p → p ∈ rs ∧ ∀ q ∈ rs, q.2 ≤ p.2 := by
  intro rs
  induction rs with
  | nil => intro p hp; exact Option.noConfusion hp
  | cons r rest ih =>
    intro p hp
    rcases hb : bestResult rest with _ | q
    · simp only [bestResult, hb, Option.some.injEq] at hp
      subst hp
      have hrest : rest = [] := bestResult_eq_none rest hb
      subst hrest
      exact ⟨by simp, by intro q hq; simp only [List.mem_singleton] at hq; rw [hq]⟩
    · simp only [bestResult, hb] at hp
      obtain ⟨hqmem, hqmax⟩ := ih q hb
      by_cases hgt : q.2 > r.2
      · rw [if_pos hgt] at hp
        simp only [Option.some.injEq] at hp
        subst hp
        refine ⟨List.mem_cons_of_mem r hqmem, ?_⟩
        intro w hw
        rcases List.mem_cons.mp hw with h | h
        · rw [h]; exact Nat.le_of_lt hgt
        · exact hqmax w h
      · rw [if_neg hgt] at hp
        simp only [Option.some.injEq] at hp
        subst hp
        refine ⟨by simp, ?_⟩
        intro w hw
        rcases List.mem_cons.mp hw with h | h
        · exact Nat.le_of_eq (by rw [h])
        · exact Nat.le_trans (hqmax w h) (Nat.le_of_not_lt hgt)

/-- C9 (modelled from the spec, §4.4; the calibration engine is not present
in src): if a probe of some candidate size times out, no larger candidate
size is ever attempted, and when any probe succeeded the final config's
`chunkSize`/`effectiveBandwidth` come from the successful probe with the
highest measured bandwidth. -/
theorem c9_calibration_monotonic_stop (probe : Nat → Option Nat) :
    (∀ c ∈ calCandidates, probe c = none →
      ∀ c2 ∈ (runCalibration probe).2, c2 ≤ c)
    ∧ ((calibrate probe calCandidates).2 ≠ [] →
        ((runCalibration probe).1.chunkSize, (runCalibration probe).1.effectiveBandwidth)
            ∈ (calibrate probe calCandidates).2
        ∧ ∀ q ∈ (calibrate probe calCandidates).2,
            q.2 ≤ (runCalibration probe).1.effectiveBandwidth) := by
  constructor
  · intro c hc hnone c2 hc2
    exact calibrate_stop probe calCandidates (by decide) c hc hnone c2 hc2
  · intro hne
    rcases hb : bestResult (calibrate probe calCandidates).2 with _ | p
    · exact absurd (bestResult_eq_none _ hb) hne
    · obtain ⟨hmem, hmax⟩ := bestResult_spec _ p hb
      have hcfg : (runCalibration probe).1
          = ⟨p.1, 4 * p.1, p.1,
              (((calibrate probe calCandidates).2).map Prod.fst).foldl max 0, p.2, true⟩ := by
        simp only [runCalibration, finalizeConfig, hb]
      rw [hcfg]
      exact ⟨hmem, hmax⟩

/-- Witness for C9: the spec's example probe outcomes — 16 KiB ok at
10 MB/s, 32 KiB ok at 15 MB/s, 64 KiB timeout — give chunk size 32 KiB,
attempt exactly [16 KiB, 32 KiB, 64 KiB], and never reach 128/256 KiB. -/
theorem c9_calibration_monotonic_stop_witness :
    (∀ c2 ∈ (runCalibration fun s =>
        if s = 16384 then some 10000000
        else if s = 32768 then some 15000000 else none).2, c2 ≤ 65536)
    ∧ (runCalibration fun s =>
        if s = 16384 then some 10000000
        else if s = 32768 then some 15000000 else none).1.chunkSize = 32768
    ∧ (runCalibration fun s =>
        if s = 16384 then some 10000000
        else if s = 32768 then some 15000000 else none).2 = [16384, 32768, 65536] := by
  refine ⟨(c9_calibration_monotonic_stop _).1 65536 (by decide) (by decide), by decide, by decide⟩

/-! ### Sender/receiver pipeline lemmas for the reassembly claim -/

/-- Frame classifier: binary chunk frame. -/
def isBinaryFrame : Frame → Bool
  | Frame.binary _ => true
  | _ => false

/-- Frame classifier: `file-meta` control frame. -/
def isMetaFrame : Frame → Bool
  | Frame.text (CtrlMsg.fileMeta _ _ _ _ _) => true
  | _ => false

/-- Frame classifier: `file-complete` control frame. -/
def isCompleteFrame : Frame → Bool
  | Frame.text (CtrlMsg.fileComplete _) => true
  | _ => false

theorem countP_binary_map (pk : List Bytes) :
    (pk.map Frame.binary).countP isBinaryFrame = pk.length := by
  induction pk with
  | nil => rfl
  | cons p rest ih => simp [List.countP_cons, isBinaryFrame, ih]

theorem countP_meta_map (pk : List Bytes) :
    (pk.map Frame.binary).countP isMetaFrame = 0 := by
  induction pk with
  | nil => rfl
  | cons p rest ih => simp [List.countP_cons, isMetaFrame, ih]

theorem countP_complete_map (pk : List Bytes) :
    (pk.map Frame.binary).countP isCompleteFrame = 0 := by
  induction pk with
  | nil => rfl
  | cons p rest ih => simp [List.countP_cons, isCompleteFrame, ih]

theorem buildPackets_length (kOpt : Option Nat) (ivs : Nat → Bytes) (id : Bytes) :
    ∀ (i : Nat) (l : List Bytes), (buildPackets kOpt ivs id i l).length = l.length := by
  intro i l
  induction l generalizing i with
  | nil => rfl
  | cons p rest ih => simp [buildPackets, ih]

theorem processFrames_cons (s : MState) (f : Frame) (rest : List Frame) :
    (processFrames s (f :: rest)).1
      = (processFrames (handleIncomingMessage s f).1 rest).1 := by
  simp only [processFrames]

theorem handleBinary_append (kOpt : Option Nat) (s : MState)
    (hk : activeKey s.isEncrypted s.sharedKey = kOpt)
    (id : Bytes) (hid : id.length ≤ 255) (iv p : Bytes) (hiv : iv.length = 12)
    (hb : ∀ x ∈ p, x < 256) (acc : List StoredChunk) (m : MetaInfo)
    (hacc : mget id s.receivedChunks = some acc) (hm : mget id s.receivedMeta = some m) :
    ∃ c : StoredChunk, c.bytes = p ∧
      handleBinaryMessage s (buildPacket kOpt iv id p)
        = ({ s with receivedChunks := mset id (acc ++ [c]) s.receivedChunks },
           [Event.file ⟨id, m.name, m.size, m.ftype,
             jsRound100 (((acc ++ [c]).map fun cc => cc.bytes.length).sum) m.size,
             Status.transferring, none⟩]) := by
  cases kOpt with
  | some k =>
    refine ⟨⟨p, p⟩, rfl, ?_⟩
    simp only [handleBinaryMessage, hk, parsePacket_buildPacket_enc k iv id p hid hiv hb,
      hacc, hm]
  | none =>
    refine ⟨⟨p, buildPacket none iv id p⟩, rfl, ?_⟩
    simp only [handleBinaryMessage, hk, parsePacket_buildPacket_plain iv id p hid, hacc, hm]

theorem processPackets_acc (kOpt : Option Nat) (ivs : Nat → Bytes)
    (hiv : ∀ i, (ivs i).length = 12) (id : Bytes) (hid : id.length ≤ 255) :
    ∀ (pieces : List Bytes) (i0 : Nat) (s : MState) (acc : List StoredChunk) (m : MetaInfo),
      activeKey s.isEncrypted s.sharedKey = kOpt →
      (∀ p ∈ pieces, ∀ x ∈ p, x < 256) →
      mget id s.receivedChunks = some acc →
      mget id s.receivedMeta = some m →
      ∃ stored,
        mget id ((processFrames s
            ((buildPackets kOpt ivs id i0 pieces).map Frame.binary)).1).receivedChunks
          = some (acc ++ stored)
        ∧ stored.map (fun c => c.bytes) = pieces
        ∧ ((processFrames s
            ((buildPackets kOpt ivs id i0 pieces).map Frame.binary)).1).receivedMeta
          = s.receivedMeta := by
  intro pieces
  induction pieces with
  | nil =>
    intro i0 s acc m _ _ hacc _
    exact ⟨[], by simpa using hacc, rfl, rfl⟩
  | cons p rest ih =>
    intro i0 s acc m hk hpb hacc hm
    obtain ⟨c, hcb, hstep⟩ := handleBinary_append kOpt s hk id hid (ivs i0) p (hiv i0)
      (hpb p (by simp)) acc m hacc hm
    have hk1 : activeKey ({ s with
        receivedChunks := mset id (acc ++ [c]) s.receivedChunks } : MState).isEncrypted
        ({ s with receivedChunks := mset id (acc ++ [c]) s.receivedChunks } : MState).sharedKey
        = kOpt := hk
    have hacc1 : mget id ({ s with
        receivedChunks := mset id (acc ++ [c]) s.receivedChunks } : MState).receivedChunks
        = some (acc ++ [c]) := mget_mset_self id (acc ++ [c]) s.receivedChunks
    obtain ⟨stored2, hacc2, hmap2, hmeta2⟩ :=
      ih (i0 + 1) { s with receivedChunks := mset id (acc ++ [c]) s.receivedChunks }
        (acc ++ [c]) m hk1 (fun q hq => hpb q (by simp [hq])) hacc1 hm
    refine ⟨c :: stored2, ?_, ?_, ?_⟩
    · rw [buildPackets, List.map_cons, processFrames_cons]
      simp only [handleIncomingMessage, hstep]
      rw [hacc2, List.append_assoc]
      rfl
    · simp [hmap2, hcb]
    · rw [buildPackets, List.map_cons, processFrames_cons]
      simp only [handleIncomingMessage, hstep]
      exact hmeta2

/-- C1: for a nonempty file of `N` bytes, `sendFile` produces exactly
`⌈N / 16384⌉` binary chunk frames, preceded by exactly one `file-meta`
(carrying the declared size `N`) and followed by exactly one
`file-complete`; delivering those frames in order to a receiver whose
encryption configuration matches the sender's, the accumulated chunk
views for the transfer id at the moment the `file-complete` is handled
concatenate to exactly the original file contents, of length equal to the
declared size. -/
theorem c1_reassembly
    (kOpt : Option Nat) (sSend sRecv : MState)
    (hks : activeKey sSend.isEncrypted sSend.sharedKey = kOpt)
    (hkr : activeKey sRecv.isEncrypted sRecv.sharedKey = kOpt)
    (ch : DataChannel) (hch : sSend.dataChannel = some ch)
    (hopen : ch.readyState = ChannelState.opened)
    (fname ftype fileData id metaIv1 metaIv2 : Bytes) (ivs : Nat → Bytes)
    (hN : fileData ≠ []) (hb : ∀ x ∈ fileData, x < 256)
    (hid : id.length ≤ 255) (hiv : ∀ i, (ivs i).length = 12) :
    ∃ frames sendEvs,
      sendFile sSend fname ftype fileData id metaIv1 metaIv2 ivs
        = Except.ok (frames, sendEvs)
      ∧ frames.countP isBinaryFrame = (fileData.length + (CHUNK_SIZE - 1)) / CHUNK_SIZE
      ∧ 0 < frames.countP isBinaryFrame
      ∧ frames.countP isMetaFrame = 1
      ∧ frames.countP isCompleteFrame = 1
      ∧ (∃ nm2 ft2 e2,
          frames.head? = some (Frame.text (CtrlMsg.fileMeta id nm2 fileData.length ft2 e2)))
      ∧ frames.getLast? = some (Frame.text (CtrlMsg.fileComplete id))
      ∧ (∃ stored m,
          mget id ((processFrames sRecv frames.dropLast).1).receivedChunks = some stored
          ∧ mget id ((processFrames sRecv frames.dropLast).1).receivedMeta = some m
          ∧ (stored.map fun c => c.bytes).flatten = fileData
          ∧ ((stored.map fun c => c.bytes).flatten).length = fileData.length
          ∧ m.size = fileData.length) := by
  have hok : ∃ nm0 ft0 e0 sendEvs,
      sendFile sSend fname ftype fileData id metaIv1 metaIv2 ivs
        = Except.ok (Frame.text (CtrlMsg.fileMeta id nm0 fileData.length ft0 e0)
            :: ((buildPackets kOpt ivs id 0 (fileChunks fileData)).map Frame.binary
              ++ [Frame.text (CtrlMsg.fileComplete id)]), sendEvs) := by
    cases kOpt with
    | some k =>
      exact ⟨encryptString k metaIv1 fname, encryptString k metaIv2 ftype,
        sSend.isEncrypted, _, by simp only [sendFile, hch, hks]; rw [if_pos hopen]⟩
    | none =>
      exact ⟨fname, ftype, sSend.isEncrypted, _,
        by simp only [sendFile, hch, hks]; rw [if_pos hopen]⟩
  obtain ⟨nm0, ft0, e0, sendEvs, hok⟩ := hok
  refine ⟨_, sendEvs, hok, ?_, ?_, ?_, ?_, ?_, ?_, ?_⟩
  · rw [List.countP_cons]
    simp only [isMetaFrame, isBinaryFrame]
    rw [List.countP_append, countP_binary_map,
      buildPackets_length kOpt ivs id 0 (fileChunks fileData), fileChunks_length]
    simp [List.countP_cons, isBinaryFrame]
  · rw [List.countP_cons]
    rw [List.countP_append, countP_binary_map,
      buildPackets_length kOpt ivs id 0 (fileChunks fileData), fileChunks_length]
    have hpos : 0 < fileData.length := List.length_pos.mpr hN
    simp only [CHUNK_SIZE]
    omega
  · rw [List.countP_cons]
    rw [List.countP_append, countP_meta_map]
    simp [List.countP_cons, isMetaFrame]
  · rw [List.countP_cons]
    rw [List.countP_append, countP_complete_map]
    simp [List.countP_cons, isCompleteFrame]
  · exact ⟨nm0, ft0, e0, rfl⟩
  · rw [← List.cons_append, List.getLast?_concat]
  · rw [← List.cons_append, List.dropLast_concat]
    obtain ⟨nmr, ftr, hmeta⟩ := handleText_meta sRecv id nm0 fileData.length ft0 e0
    rw [processFrames_cons]
    simp only [handleIncomingMessage, hmeta]
    have hk1 : activeKey ({ sRecv with
        receivedMeta := mset id ⟨nmr, fileData.length, ftr⟩ sRecv.receivedMeta,
        receivedChunks := mset id [] sRecv.receivedChunks } : MState).isEncrypted
        ({ sRecv with
          receivedMeta := mset id ⟨nmr, fileData.length, ftr⟩ sRecv.receivedMeta,
          receivedChunks := mset id [] sRecv.receivedChunks } : MState).sharedKey = kOpt := hkr
    have hpb : ∀ p ∈ fileChunks fileData, ∀ x ∈ p, x < 256 :=
      chunksOfAux_mem_bound (CHUNK_SIZE - 1) fileData.length fileData (Nat.le_refl _) hb
    obtain ⟨stored, hacc2, hmap2, hmeta2⟩ :=
      processPackets_acc kOpt ivs hiv id hid (fileChunks fileData) 0
        { sRecv with
          receivedMeta := mset id ⟨nmr, fileData.length, ftr⟩ sRecv.receivedMeta,
          receivedChunks := mset id [] sRecv.receivedChunks }
        [] ⟨nmr, fileData.length, ftr⟩ hk1 hpb
        (mget_mset_self id [] sRecv.receivedChunks)
        (mget_mset_self id _ sRecv.receivedMeta)
    refine ⟨stored, ⟨nmr, fileData.length, ftr⟩, ?_, ?_, ?_, ?_, rfl⟩
    · rw [hacc2]; simp
    · rw [hmeta2]
      exact mget_mset_self id _ sRecv.receivedMeta
    · rw [hmap2]; exact fileChunks_join fileData
    · rw [hmap2, fileChunks_join]

/-- Witness for C1: an encrypted 3-byte file over matching sessions keyed
with 7: one meta frame, one chunk frame, one complete frame, and exact
reassembly. -/
theorem c1_reassembly_witness :
    ∃ frames sendEvs,
      sendFile ⟨none, some ⟨ChannelState.opened⟩, [], [], none, some 7, true⟩
          [70] [84] [10, 20, 30] [65] (List.replicate 12 0) (List.replicate 12 0)
          (fun _ => List.replicate 12 0)
        = Except.ok (frames, sendEvs)
      ∧ frames.countP isBinaryFrame
          = (([10, 20, 30] : Bytes).length + (CHUNK_SIZE - 1)) / CHUNK_SIZE
      ∧ 0 < frames.countP isBinaryFrame
      ∧ frames.countP isMetaFrame = 1
      ∧ frames.countP isCompleteFrame = 1
      ∧ (∃ nm2 ft2 e2, frames.head?
          = some (Frame.text (CtrlMsg.fileMeta [65] nm2 ([10, 20, 30] : Bytes).length ft2 e2)))
      ∧ frames.getLast? = some (Frame.text (CtrlMsg.fileComplete [65]))
      ∧ (∃ stored m,
          mget [65] ((processFrames ⟨none, none, [], [], none, some 7, true⟩
              frames.dropLast).1).receivedChunks = some stored
          ∧ mget [65] ((processFrames ⟨none, none, [], [], none, some 7, true⟩
              frames.dropLast).1).receivedMeta = some m
          ∧ (stored.map fun c => c.bytes).flatten = [10, 20, 30]
          ∧ ((stored.map fun c => c.bytes).flatten).length = ([10, 20, 30] : Bytes).length
          ∧ m.size = ([10, 20, 30] : Bytes).length) :=
  c1_reassembly (some 7) ⟨none, some ⟨ChannelState.opened⟩, [], [], none, some 7, true⟩
    ⟨none, none, [], [], none, some 7, true⟩ rfl rfl ⟨ChannelState.opened⟩ rfl rfl
    [70] [84] [10, 20, 30] [65] (List.replicate 12 0) (List.replicate 12 0)
    (fun _ => List.replicate 12 0) (by decide) (by decide) (by decide) (fun _ => rfl)

end WebrtcShare
